import Mathlib

/-!
Verification of the blackbird-cipher DSP core
(src/components/BirdsongCodec.tsx) against its design document.

The TypeScript numerics (JS doubles / Float32Array) are embedded as real
numbers; sample buffers are lists of reals.  The deployment constants
(imported from a constants module) are gathered in a `Config` record and
kept abstract: every theorem quantifies over them, with the arithmetic
side conditions it needs stated as hypotheses.  Loops become folds or
structural recursion; the early `break` of the synthesis loops becomes an
explicit sample limit, which is equivalent because the break condition is
monotone in the sample index.
-/

set_option maxRecDepth 8192

namespace Birdsong

/-- Deployment constants of the codec (the constants module of the repo,
values fixed per deployment). -/
structure Config where
  sampleRate : ℕ
  fftSize : ℕ
  hopSize : ℕ
  numBands : ℕ
  speechMaxFreq : ℝ
  birdDataStartFreq : ℝ
  birdDataStep : ℝ
  pitchMultiplier : ℝ

/-- Source line 20: hzToMel. -/
noncomputable def hzToMel (hz : ℝ) : ℝ := 2595 * Real.logb 10 (1 + hz / 700)

/-- Source line 21: melToHz. -/
noncomputable def melToHz (mel : ℝ) : ℝ := 700 * ((10 : ℝ) ^ (mel / 2595) - 1)

/-- One entry of the mel band table (the source object
`{start, end, center}`; `end` is a Lean keyword, hence `endHz`). -/
structure MelBand where
  start : ℝ
  endHz : ℝ
  center : ℝ

instance : Inhabited MelBand := ⟨⟨0, 0, 0⟩⟩

/-- Source lines 23-39: getMelBands. -/
noncomputable def getMelBands (cfg : Config) : List MelBand :=
  let minMel := hzToMel 100
  let maxMel := hzToMel cfg.speechMaxFreq
  let step := (maxMel - minMel) / cfg.numBands
  (List.range cfg.numBands).map (fun (i : ℕ) =>
    { start := melToHz (minMel + (i : ℝ) * step)
      endHz := melToHz (minMel + ((i : ℝ) + 1) * step)
      center := melToHz (minMel + ((i : ℝ) + 0.5) * step) })

lemma melToHz_hzToMel {hz : ℝ} (h : -700 < hz) : melToHz (hzToMel hz) = hz := by
  unfold melToHz hzToMel
  have h1 : (0 : ℝ) < 1 + hz / 700 := by
    rw [show (1 : ℝ) + hz / 700 = (700 + hz) / 700 by ring]
    exact div_pos (by linarith) (by norm_num)
  rw [show (2595 : ℝ) * Real.logb 10 (1 + hz / 700) / 2595
        = Real.logb 10 (1 + hz / 700) from by ring]
  rw [Real.rpow_logb (by norm_num) (by norm_num) h1]
  ring

lemma hzToMel_melToHz (m : ℝ) : hzToMel (melToHz m) = m := by
  unfold hzToMel melToHz
  have : 1 + 700 * ((10 : ℝ) ^ (m / 2595) - 1) / 700 = (10 : ℝ) ^ (m / 2595) := by
    field_simp
  rw [this, Real.logb_rpow (by norm_num) (by norm_num)]
  field_simp

lemma melToHz_strictMono : StrictMono melToHz := by
  intro a b hab
  unfold melToHz
  have : (10 : ℝ) ^ (a / 2595) < (10 : ℝ) ^ (b / 2595) := by
    rw [Real.rpow_lt_rpow_left_iff (by norm_num : (1 : ℝ) < 10)]
    linarith
  linarith

lemma hzToMel_lt_hzToMel {a b : ℝ} (ha : -700 < a) (hab : a < b) :
    hzToMel a < hzToMel b := by
  unfold hzToMel
  have h1 : (0 : ℝ) < 1 + a / 700 := by linarith
  have h2 : 1 + a / 700 < 1 + b / 700 := by linarith
  have := Real.logb_lt_logb (by norm_num : (1 : ℝ) < 10) h1 h2
  linarith

lemma getMelBands_length (cfg : Config) : (getMelBands cfg).length = cfg.numBands := by
  simp only [getMelBands, List.length_map, List.length_range]

lemma getMelBands_getD (cfg : Config) {i : ℕ} (hi : i < cfg.numBands) :
    (getMelBands cfg).getD i default =
      { start := melToHz (hzToMel 100 + i * ((hzToMel cfg.speechMaxFreq - hzToMel 100) / cfg.numBands))
        endHz := melToHz (hzToMel 100 + (i + 1) * ((hzToMel cfg.speechMaxFreq - hzToMel 100) / cfg.numBands))
        center := melToHz (hzToMel 100 + (i + 0.5) * ((hzToMel cfg.speechMaxFreq - hzToMel 100) / cfg.numBands)) } := by
  have hlen : i < (getMelBands cfg).length := by
    rw [getMelBands_length]; exact hi
  rw [List.getD_eq_getElem _ _ hlen]
  simp only [getMelBands, List.getElem_map, List.getElem_range]

/-- C5: the mel band table has exactly NUM_BANDS entries; mapping each
band edge back through the forward mel transform recovers the arithmetic
partition of [mel(100), mel(SPEECH_MAX_FREQ)] into NUM_BANDS equal steps
(start at index i, end at i+1, center at i+0.5); the centers are strictly
increasing; band 0 starts at 100 Hz and the last band ends at
SPEECH_MAX_FREQ (both exactly, hence within any tolerance). -/
theorem C5_melBands (cfg : Config) (hN : 0 < cfg.numBands)
    (hS : 100 < cfg.speechMaxFreq) :
    (getMelBands cfg).length = cfg.numBands
    ∧ (∀ i, i < cfg.numBands →
        hzToMel (((getMelBands cfg).getD i default).start) =
          hzToMel 100 + i * ((hzToMel cfg.speechMaxFreq - hzToMel 100) / cfg.numBands)
        ∧ hzToMel (((getMelBands cfg).getD i default).endHz) =
          hzToMel 100 + (i + 1) * ((hzToMel cfg.speechMaxFreq - hzToMel 100) / cfg.numBands)
        ∧ hzToMel (((getMelBands cfg).getD i default).center) =
          hzToMel 100 + (i + 0.5) * ((hzToMel cfg.speechMaxFreq - hzToMel 100) / cfg.numBands))
    ∧ (∀ i j, i < j → j < cfg.numBands →
        (((getMelBands cfg).getD i default).center) < (((getMelBands cfg).getD j default).center))
    ∧ ((getMelBands cfg).getD 0 default).start = 100
    ∧ ((getMelBands cfg).getD (cfg.numBands - 1) default).endHz = cfg.speechMaxFreq := by
  have hstep : 0 < (hzToMel cfg.speechMaxFreq - hzToMel 100) / cfg.numBands := by
    have h1 : hzToMel 100 < hzToMel cfg.speechMaxFreq :=
      hzToMel_lt_hzToMel (by norm_num) hS
    have h2 : (0 : ℝ) < cfg.numBands := by exact_mod_cast hN
    exact div_pos (by linarith) h2
  refine ⟨getMelBands_length cfg, ?_, ?_, ?_, ?_⟩
  · intro i hi
    rw [getMelBands_getD cfg hi]
    exact ⟨hzToMel_melToHz _, hzToMel_melToHz _, hzToMel_melToHz _⟩
  · intro i j hij hj
    rw [getMelBands_getD cfg (lt_trans hij hj), getMelBands_getD cfg hj]
    apply melToHz_strictMono
    have : (i : ℝ) < j := by exact_mod_cast hij
    nlinarith
  · rw [getMelBands_getD cfg hN]
    simp only [Nat.cast_zero, zero_mul, add_zero]
    exact melToHz_hzToMel (by norm_num)
  · rw [getMelBands_getD cfg (Nat.sub_lt hN one_pos)]
    have hcast : ((cfg.numBands - 1 : ℕ) : ℝ) + 1 = (cfg.numBands : ℝ) := by
      have := Nat.succ_pred_eq_of_pos hN
      exact_mod_cast congrArg (Nat.cast (R := ℝ)) this
    have hne : (cfg.numBands : ℝ) ≠ 0 := by
      have h2 : (0 : ℝ) < cfg.numBands := by exact_mod_cast hN
      linarith
    rw [hcast]
    rw [mul_div_cancel₀ _ hne]
    have : hzToMel 100 + (hzToMel cfg.speechMaxFreq - hzToMel 100) = hzToMel cfg.speechMaxFreq := by ring
    rw [this]
    exact melToHz_hzToMel (by linarith)

/-- Witness for C5 at a concrete deployment: 20 bands over 100-4000 Hz. -/
theorem C5_melBands_witness :
    (getMelBands ⟨24000, 1024, 256, 20, 4000, 5200, 120, 8⟩).length = 20
    ∧ ((getMelBands ⟨24000, 1024, 256, 20, 4000, 5200, 120, 8⟩).getD 0 default).start = 100 := by
  have h := C5_melBands ⟨24000, 1024, 256, 20, 4000, 5200, 120, 8⟩
    (by norm_num) (by norm_num)
  exact ⟨h.1, h.2.2.2.1⟩

/-- Source lines 116-118: the decimated autocorrelation sum of one
candidate period: buffer[i]*buffer[i+period] summed over i = 0, 2, 4, ...
while i < buffer.length - period. -/
noncomputable def correlationAt (buffer : List ℝ) (period : ℕ) : ℝ :=
  ((List.range ((buffer.length - period + 1) / 2)).map
    (fun j => buffer.getD (2 * j) 0 * buffer.getD (2 * j + period) 0)).sum

/-- Source lines 109-123: the running (bestCorrelation, bestPeriod) fold;
a candidate replaces the best exactly when its correlation is strictly
larger. -/
noncomputable def bestFold (f : ℕ → ℝ) (ps : List ℕ) (init : ℝ × ℕ) : ℝ × ℕ :=
  ps.foldl (fun best p => if best.1 < f p then (f p, p) else best) init

/-- Source lines 106-123: the period search of extractPitch over
candidate periods minPeriod, ..., maxPeriod - 1, starting from
bestCorrelation = 0, bestPeriod = 0. -/
noncomputable def bestOf (buffer : List ℝ) (minPeriod maxPeriod : ℕ) : ℝ × ℕ :=
  bestFold (correlationAt buffer) (List.range' minPeriod (maxPeriod - minPeriod)) (0, 0)

/-- Source line 126: root mean square of the window. -/
noncomputable def rmsOf (buffer : List ℝ) : ℝ :=
  Real.sqrt ((buffer.map (fun v => v * v)).sum / buffer.length)

/-- Source lines 104-130: extractPitch. -/
noncomputable def extractPitch (buffer : List ℝ) (sampleRate : ℕ) : ℝ :=
  let minPeriod := sampleRate / 800
  let maxPeriod := sampleRate / 70
  let best := bestOf buffer minPeriod maxPeriod
  if rmsOf buffer < 0.01 then 0
  else if 0 < best.2 then (sampleRate : ℝ) / best.2 else 0

lemma bestFold_cases (f : ℕ → ℝ) (ps : List ℕ) : ∀ init : ℝ × ℕ,
    (bestFold f ps init = init ∧ ∀ p ∈ ps, f p ≤ init.1)
    ∨ ((bestFold f ps init).2 ∈ ps
        ∧ (bestFold f ps init).1 = f (bestFold f ps init).2
        ∧ init.1 < (bestFold f ps init).1
        ∧ ∀ p ∈ ps, f p ≤ (bestFold f ps init).1) := by
  induction ps with
  | nil =>
    intro init
    left
    exact ⟨rfl, by simp⟩
  | cons p ps ih =>
    intro init
    by_cases hc : init.1 < f p
    · have hstep : bestFold f (p :: ps) init = bestFold f ps (f p, p) := by
        simp [bestFold, hc]
      rcases ih (f p, p) with ⟨heq, hall⟩ | ⟨hmem, heq, hlt, hall⟩
      · right
        rw [hstep, heq]
        refine ⟨List.mem_cons_self _ _, rfl, hc, ?_⟩
        intro q hq
        rcases List.mem_cons.mp hq with h | h
        · subst h; exact le_refl _
        · exact hall q h
      · right
        rw [hstep]
        refine ⟨List.mem_cons_of_mem _ hmem, heq, lt_trans hc hlt, ?_⟩
        intro q hq
        rcases List.mem_cons.mp hq with h | h
        · subst h; exact le_of_lt hlt
        · exact hall q h
    · have hstep : bestFold f (p :: ps) init = bestFold f ps init := by
        simp [bestFold, hc]
      rcases ih init with ⟨heq, hall⟩ | ⟨hmem, heq, hlt, hall⟩
      · left
        rw [hstep]
        refine ⟨heq, ?_⟩
        intro q hq
        rcases List.mem_cons.mp hq with h | h
        · subst h; exact not_lt.mp hc
        · exact hall q h
      · right
        rw [hstep]
        refine ⟨List.mem_cons_of_mem _ hmem, heq, hlt, ?_⟩
        intro q hq
        rcases List.mem_cons.mp hq with h | h
        · subst h; exact le_of_lt (lt_of_le_of_lt (not_lt.mp hc) hlt)
        · exact hall q h

lemma extractPitch_eq (buffer : List ℝ) (sampleRate : ℕ) :
    extractPitch buffer sampleRate =
      if rmsOf buffer < 0.01 then 0
      else if 0 < (bestOf buffer (sampleRate / 800) (sampleRate / 70)).2 then
        (sampleRate : ℝ) / (bestOf buffer (sampleRate / 800) (sampleRate / 70)).2
      else 0 := rfl

lemma bestOf_cases (buffer : List ℝ) (minP maxP : ℕ) (h : minP ≤ maxP) :
    (bestOf buffer minP maxP = (0, 0)
      ∧ ∀ p, minP ≤ p → p < maxP → correlationAt buffer p ≤ 0)
    ∨ (minP ≤ (bestOf buffer minP maxP).2 ∧ (bestOf buffer minP maxP).2 < maxP
        ∧ (bestOf buffer minP maxP).1 = correlationAt buffer (bestOf buffer minP maxP).2
        ∧ 0 < (bestOf buffer minP maxP).1
        ∧ ∀ p, minP ≤ p → p < maxP → correlationAt buffer p ≤ (bestOf buffer minP maxP).1) := by
  have hmem : ∀ q : ℕ, q ∈ List.range' minP (maxP - minP) ↔ minP ≤ q ∧ q < maxP := by
    intro q
    rw [List.mem_range'_1, Nat.add_sub_cancel' h]
  rcases bestFold_cases (correlationAt buffer) (List.range' minP (maxP - minP)) (0, 0)
    with ⟨heq, hall⟩ | ⟨hmem2, heq, hlt, hall⟩
  · left
    refine ⟨heq, ?_⟩
    intro p h1 h2
    exact hall p ((hmem p).mpr ⟨h1, h2⟩)
  · right
    have h3 := (hmem _).mp hmem2
    exact ⟨h3.1, h3.2, heq, hlt, fun p h1 h2 => hall p ((hmem p).mpr ⟨h1, h2⟩)⟩

/-- C6: the pitch estimate of a window.  If the window RMS is below 0.01
the estimate is 0 regardless of correlations; otherwise, if no candidate
period in [sampleRate/800, sampleRate/70) has positive decimated
autocorrelation sum the estimate is 0; and if some candidate does, the
estimate is sampleRate / best for a candidate period best whose
correlation sum is maximal over the whole range. -/
theorem C6_extractPitch (buffer : List ℝ) (sampleRate : ℕ)
    (h800 : 800 ≤ sampleRate) :
    (rmsOf buffer < 0.01 → extractPitch buffer sampleRate = 0)
    ∧ (¬ rmsOf buffer < 0.01 →
        (∀ p, sampleRate / 800 ≤ p → p < sampleRate / 70 →
          correlationAt buffer p ≤ 0) →
        extractPitch buffer sampleRate = 0)
    ∧ (¬ rmsOf buffer < 0.01 →
        (∃ p, sampleRate / 800 ≤ p ∧ p < sampleRate / 70 ∧
          0 < correlationAt buffer p) →
        ∃ best, sampleRate / 800 ≤ best ∧ best < sampleRate / 70
          ∧ 0 < correlationAt buffer best
          ∧ (∀ p, sampleRate / 800 ≤ p → p < sampleRate / 70 →
              correlationAt buffer p ≤ correlationAt buffer best)
          ∧ extractPitch buffer sampleRate = (sampleRate : ℝ) / best) := by
  have hrange : sampleRate / 800 ≤ sampleRate / 70 :=
    Nat.div_le_div_left (by norm_num) (by norm_num)
  refine ⟨?_, ?_, ?_⟩
  · intro hrms
    rw [extractPitch_eq, if_pos hrms]
  · intro hrms hall
    rcases bestOf_cases buffer (sampleRate / 800) (sampleRate / 70) hrange
      with ⟨heq, _⟩ | ⟨_, h2, h3, h4, _⟩
    · rw [extractPitch_eq, if_neg hrms, heq]
      norm_num
    · exfalso
      have := hall _ ‹sampleRate / 800 ≤ (bestOf buffer (sampleRate / 800) (sampleRate / 70)).2› h2
      rw [← h3] at this
      exact absurd this (not_le.mpr h4)
  · intro hrms hex
    rcases bestOf_cases buffer (sampleRate / 800) (sampleRate / 70) hrange
      with ⟨_, hall⟩ | ⟨h1, h2, h3, _, hall⟩
    · exfalso
      obtain ⟨p, hp1, hp2, hp3⟩ := hex
      exact absurd (hall p hp1 hp2) (not_le.mpr hp3)
    · refine ⟨(bestOf buffer (sampleRate / 800) (sampleRate / 70)).2, h1, h2, ?_, ?_, ?_⟩
      · rw [← h3]; assumption
      · intro p hp1 hp2
        rw [← h3]; exact hall p hp1 hp2
      · have hpos : 0 < (bestOf buffer (sampleRate / 800) (sampleRate / 70)).2 :=
          lt_of_lt_of_le (Nat.div_pos h800 (by norm_num)) h1
        rw [extractPitch_eq, if_neg hrms, if_pos hpos]

/-- Witness for C6: a silent window at 24 kHz has pitch estimate 0. -/
theorem C6_extractPitch_witness :
    extractPitch (List.replicate 1024 0) 24000 = 0 := by
  have h := C6_extractPitch (List.replicate 1024 0) 24000 (by norm_num)
  apply h.1
  have : rmsOf (List.replicate 1024 (0 : ℝ)) = 0 := by
    unfold rmsOf
    rw [List.map_replicate, List.sum_replicate]
    simp
  rw [this]
  norm_num

/-- C10: the pitch estimate is either 0 or lies in the interval
(70, sampleRate / (sampleRate / 800)]: a nonzero result is
sampleRate / period for a winning period in
[sampleRate/800, sampleRate/70), which makes it strictly above 70 Hz and
at most sampleRate divided by floor(sampleRate/800). -/
theorem C10_extractPitch_range (buffer : List ℝ) (sampleRate : ℕ)
    (h800 : 800 ≤ sampleRate) :
    extractPitch buffer sampleRate = 0
    ∨ (70 < extractPitch buffer sampleRate
        ∧ extractPitch buffer sampleRate ≤ (sampleRate : ℝ) / (sampleRate / 800 : ℕ)) := by
  have hrange : sampleRate / 800 ≤ sampleRate / 70 :=
    Nat.div_le_div_left (by norm_num) (by norm_num)
  by_cases hrms : rmsOf buffer < 0.01
  · left; rw [extractPitch_eq, if_pos hrms]
  rcases bestOf_cases buffer (sampleRate / 800) (sampleRate / 70) hrange
    with ⟨heq, _⟩ | ⟨h1, h2, _, _, _⟩
  · left
    rw [extractPitch_eq, if_neg hrms, heq]
    norm_num
  · right
    set best := (bestOf buffer (sampleRate / 800) (sampleRate / 70)).2 with hbest
    have hminpos : 0 < sampleRate / 800 := Nat.div_pos h800 (by norm_num)
    have hpos : 0 < best := lt_of_lt_of_le hminpos h1
    have hval : extractPitch buffer sampleRate = (sampleRate : ℝ) / best := by
      rw [extractPitch_eq, if_neg hrms, if_pos hpos]
    have hsr : (0 : ℝ) < sampleRate := by
      have : (0 : ℕ) < sampleRate := by omega
      exact_mod_cast this
    have hbpos : (0 : ℝ) < best := by exact_mod_cast hpos
    constructor
    · rw [hval]
      rw [lt_div_iff₀ hbpos]
      have hlt : (best : ℝ) < (sampleRate : ℝ) / 70 := by
        have hmax : (sampleRate / 70 : ℕ) ≤ (sampleRate : ℝ) / 70 := by
          rw [le_div_iff₀ (by norm_num : (0:ℝ) < 70)]
          exact_mod_cast Nat.div_mul_le_self sampleRate 70
        have : (best : ℝ) < ((sampleRate / 70 : ℕ) : ℝ) := by exact_mod_cast h2
        linarith
      nlinarith
    · rw [hval]
      apply div_le_div_of_nonneg_left (le_of_lt hsr) _ _
      · exact_mod_cast hminpos
      · exact_mod_cast h1

/-- Witness for C10 at a silent window and 24 kHz: the dichotomy holds
there (and in fact the left branch does). -/
theorem C10_extractPitch_range_witness :
    extractPitch (List.replicate 1024 0) 24000 = 0
    ∨ (70 < extractPitch (List.replicate 1024 0) 24000
        ∧ extractPitch (List.replicate 1024 0) 24000 ≤ (24000 : ℝ) / (24000 / 800 : ℕ)) :=
  C10_extractPitch_range (List.replicate 1024 0) 24000 (by norm_num)

/-- Source lines 132-165: computeMagnitudeSpectrum.  A Hann window is
applied to the zero-padded frame; each of the fftSize/2 bins is a direct
DFT whose inner sum steps n by 2 and skips windowed samples of absolute
value at most 1e-6 (the source guard is strict |x| > 1e-6). -/
noncomputable def computeMagnitudeSpectrum (fftSize : ℕ) (samples : List ℝ) : List ℝ :=
  let windowed := (List.range fftSize).map (fun (n : ℕ) =>
    (if n < samples.length then samples.getD n 0 else 0)
      * (0.5 * (1 - Real.cos (2 * Real.pi * (n : ℝ) / ((fftSize : ℝ) - 1)))))
  (List.range (fftSize / 2)).map (fun (k : ℕ) =>
    let angleFactor := -2 * Real.pi * (k : ℝ) / (fftSize : ℝ)
    let r := ((List.range ((fftSize + 1) / 2)).map (fun (m : ℕ) =>
      let x := windowed.getD (2 * m) 0
      if 1e-6 < |x| then x * Real.cos (angleFactor * ((2 * m : ℕ) : ℝ)) else 0)).sum
    let i_val := ((List.range ((fftSize + 1) / 2)).map (fun (m : ℕ) =>
      let x := windowed.getD (2 * m) 0
      if 1e-6 < |x| then x * Real.sin (angleFactor * ((2 * m : ℕ) : ℝ)) else 0)).sum
    Real.sqrt (r * r + i_val * i_val))

/-- Frame analysis record (types.ts): band energies, pitch, RMS amplitude. -/
structure FrameAnalysis where
  bandEnergies : List ℝ
  pitch : ℝ
  amplitude : ℝ

instance : Inhabited FrameAnalysis := ⟨⟨[], 0, 0⟩⟩

/-- Consecutive integers from a to b inclusive (the k-loop ranges of the
source, which may start below zero). -/
def intRange (a b : ℤ) : List ℤ := (List.range (b + 1 - a).toNat).map (fun j => a + j)

/-- Source lines 173-186: running peak over the bins of one mel band (the
source variable is called sum but tracks a maximum).  The source guards
only k < magnitudes.length; for a negative k the JS read is undefined and
the comparison is false, hence the 0 ≤ k conjunct. -/
noncomputable def bandPeak (magnitudes : List ℝ) (startBin endBin : ℤ) : ℝ :=
  (intRange startBin endBin).foldl (fun sum k =>
    if 0 ≤ k ∧ k.toNat < magnitudes.length ∧ sum < magnitudes.getD k.toNat 0
    then magnitudes.getD k.toNat 0 else sum) 0

/-- Source lines 167-196: analyzeSpeechFrame (amplitude is the RMS of the
raw window, same formula as in extractPitch). -/
noncomputable def analyzeSpeechFrame (cfg : Config) (samples : List ℝ) : FrameAnalysis :=
  let magnitudes := computeMagnitudeSpectrum cfg.fftSize samples
  let binSize := (cfg.sampleRate : ℝ) / (cfg.fftSize : ℝ)
  { bandEnergies := (getMelBands cfg).map (fun band =>
      bandPeak magnitudes ⌊band.start / binSize⌋ ⌊band.endHz / binSize⌋)
    pitch := extractPitch samples cfg.sampleRate
    amplitude := rmsOf samples }

/-- Source lines 212, 310: numFrames = Math.floor((len - FFT_SIZE) / HOP_SIZE),
a floor division of a possibly negative numerator. -/
def numFramesOf (len fft hop : ℕ) : ℤ := Int.fdiv ((len : ℤ) - (fft : ℤ)) (hop : ℤ)

/-- Source lines 219-223: the analysis pass of the encoder: one Frame
Analysis per hop-spaced window (inputData.slice(start, start + FFT_SIZE)
is drop/take). -/
noncomputable def analysisFrames (cfg : Config) (inputData : List ℝ) (n : ℕ) :
    List FrameAnalysis :=
  (List.range n).map (fun f =>
    analyzeSpeechFrame cfg ((inputData.drop (f * cfg.hopSize)).take cfg.fftSize))

/-- Source lines 229-273, body of the synthesis loop for one sample i:
interpolated pitch/amplitude/band energies between frame and frame+1,
bird carrier (phase advanced only when pitch > 50), data payload (all
band phases advanced every sample), mix and global envelope.  Returns
the new (phaseMain, phaseData) state and the sample value. -/
noncomputable def encodeStep (cfg : Config) (frames : List FrameAnalysis)
    (i : ℕ) (phaseMain : ℝ) (phaseData : List ℝ) : (ℝ × List ℝ) × ℝ :=
  let pos := ((i % cfg.hopSize : ℕ) : ℝ) / (cfg.hopSize : ℝ)
  let frame := frames.getD (i / cfg.hopSize) default
  let next := frames.getD (i / cfg.hopSize + 1) default
  let pitch := frame.pitch * (1 - pos) + next.pitch * pos
  let amp := frame.amplitude * (1 - pos) + next.amplitude * pos
  let phaseMain1 := if 50 < pitch
    then phaseMain + 2 * Real.pi * (pitch * cfg.pitchMultiplier) / (cfg.sampleRate : ℝ)
    else phaseMain
  let carrier := if 50 < pitch then Real.sin phaseMain1 * 0.8 else 0
  let phaseData1 := (List.range cfg.numBands).map (fun (b : ℕ) =>
    phaseData.getD b 0
      + 2 * Real.pi * (cfg.birdDataStartFreq + (b : ℝ) * cfg.birdDataStep) / (cfg.sampleRate : ℝ))
  let dataSignal := ((List.range cfg.numBands).map (fun (b : ℕ) =>
    Real.sin (phaseData1.getD b 0)
      * (frame.bandEnergies.getD b 0 * (1 - pos) + next.bandEnergies.getD b 0 * pos))).sum
  ((phaseMain1, phaseData1), (carrier + dataSignal * 0.15) * amp)

/-- Source lines 229-273: the synthesis loop from sample i, producing k
samples while threading the phase state. -/
noncomputable def encodeSynthGo (cfg : Config) (frames : List FrameAnalysis) :
    ℕ → ℕ → ℝ → List ℝ → List ℝ
  | _, 0, _, _ => []
  | i, k + 1, phaseMain, phaseData =>
    let s := encodeStep cfg frames i phaseMain phaseData
    s.2 :: encodeSynthGo cfg frames (i + 1) k s.1.1 s.1.2

/-- Source lines 276-277 and 454-455: running peak absolute value of a
buffer, starting from 0. -/
noncomputable def maxAbs (l : List ℝ) : ℝ := l.foldl (fun m v => max m |v|) 0

/-- Source lines 276-281 and 454-459: scale the buffer so its peak is
the given value; skipped when the peak is 0. -/
noncomputable def normalizeTo (peak : ℝ) (l : List ℝ) : List ℝ :=
  if 0 < maxAbs l then l.map (fun v => v * (peak / maxAbs l)) else l

/-- Source lines 200-297: encodeTobirdsong, the pure core of the encoder.
The UI state, yielding and AudioBuffer wrapping are dropped; phase0 b
stands for the Math.random()*2*pi initial phase of data band b; the break
at frameIndex >= numFrames-1 is the sample limit min(len, (n-1)*HOP),
after which the preallocated output stays zero. -/
noncomputable def encodeTobirdsong (cfg : Config) (phase0 : ℕ → ℝ)
    (inputData : List ℝ) : Except String (List ℝ) :=
  let numFrames := numFramesOf inputData.length cfg.fftSize cfg.hopSize
  if numFrames ≤ 0 then Except.error "Audio too short" else
  let n := numFrames.toNat
  let outputLength := inputData.length
  let frames := analysisFrames cfg inputData n
  let phaseData0 := (List.range cfg.numBands).map (fun b => phase0 b)
  let limit := min outputLength ((n - 1) * cfg.hopSize)
  let synth := encodeSynthGo cfg frames 0 limit 0 phaseData0
  Except.ok (normalizeTo 0.95 (synth ++ List.replicate (outputLength - limit) 0))

lemma encodeSynthGo_length (cfg : Config) (frames : List FrameAnalysis) :
    ∀ k i phaseMain phaseData,
      (encodeSynthGo cfg frames i k phaseMain phaseData).length = k := by
  intro k
  induction k with
  | zero => intro i pm pd; rfl
  | succ k ih =>
    intro i pm pd
    show (_ :: _).length = k + 1
    rw [List.length_cons, ih]

lemma foldl_maxAbs_init_le : ∀ (l : List ℝ) (a : ℝ),
    a ≤ l.foldl (fun m v => max m |v|) a := by
  intro l
  induction l with
  | nil => intro a; exact le_refl a
  | cons x xs ih =>
    intro a
    exact le_trans (le_max_left a |x|) (ih (max a |x|))

lemma maxAbs_nonneg (l : List ℝ) : 0 ≤ maxAbs l := foldl_maxAbs_init_le l 0

lemma le_maxAbs (l : List ℝ) : ∀ v ∈ l, |v| ≤ maxAbs l := by
  have key : ∀ (l : List ℝ) (a : ℝ) (v : ℝ), v ∈ l →
      |v| ≤ l.foldl (fun m v => max m |v|) a := by
    intro l
    induction l with
    | nil => intro a v hv; exact absurd hv (List.not_mem_nil v)
    | cons x xs ih =>
      intro a v hv
      rcases List.mem_cons.mp hv with h | h
      · subst h
        exact le_trans (le_max_right a |v|) (foldl_maxAbs_init_le xs (max a |v|))
      · exact ih (max a |x|) v h
  exact key l 0

lemma maxAbs_eq_zero_forall {l : List ℝ} (h : maxAbs l = 0) : ∀ v ∈ l, v = 0 := by
  intro v hv
  have h1 := le_maxAbs l v hv
  rw [h] at h1
  exact abs_eq_zero.mp (le_antisymm h1 (abs_nonneg v))

lemma maxAbs_map_mul {c : ℝ} (hc : 0 ≤ c) (l : List ℝ) :
    maxAbs (l.map (fun v => v * c)) = maxAbs l * c := by
  have key : ∀ (l : List ℝ) (a : ℝ),
      (l.map (fun v => v * c)).foldl (fun m v => max m |v|) (a * c)
        = (l.foldl (fun m v => max m |v|) a) * c := by
    intro l
    induction l with
    | nil => intro a; rfl
    | cons x xs ih =>
      intro a
      show (xs.map (fun v => v * c)).foldl _ (max (a * c) |x * c|) = _
      rw [abs_mul, abs_of_nonneg hc, ← max_mul_of_nonneg _ _ hc, ih, List.foldl_cons]
  have := key l 0
  rw [zero_mul] at this
  exact this

lemma maxAbs_replicate_zero (n : ℕ) : maxAbs (List.replicate n (0 : ℝ)) = 0 := by
  induction n with
  | zero => rfl
  | succ k ih =>
    show maxAbs (0 :: List.replicate k (0 : ℝ)) = 0
    unfold maxAbs at ih ⊢
    simp only [List.foldl_cons, abs_zero, max_self]
    exact ih

lemma maxAbs_pos_of_ne {l : List ℝ} {v : ℝ} (hv : v ∈ l) (hne : v ≠ 0) :
    0 < maxAbs l := lt_of_lt_of_le (abs_pos.mpr hne) (le_maxAbs l v hv)

lemma normalizeTo_length (peak : ℝ) (l : List ℝ) :
    (normalizeTo peak l).length = l.length := by
  unfold normalizeTo
  split
  · rw [List.length_map]
  · rfl

lemma maxAbs_normalizeTo {l : List ℝ} {peak : ℝ} (hp : 0 < peak)
    (h : 0 < maxAbs l) : maxAbs (normalizeTo peak l) = peak := by
  unfold normalizeTo
  rw [if_pos h, maxAbs_map_mul (le_of_lt (div_pos hp h))]
  field_simp

lemma normalizeTo_of_maxAbs_eq_zero {l : List ℝ} (peak : ℝ) (h : maxAbs l = 0) :
    normalizeTo peak l = l := by
  unfold normalizeTo
  rw [if_neg]
  rw [h]
  exact lt_irrefl 0

/-- Decoded frame record (types.ts): band energies, smoothed pitch, peak
carrier magnitude. -/
structure DecodedFrame where
  bandEnergies : List ℝ
  pitch : ℝ
  amplitude : ℝ

instance : Inhabited DecodedFrame := ⟨⟨[], 0, 0⟩⟩

/-- Source lines 316, 324-325: the magnitude spectrum of decoder frame f. -/
noncomputable def frameMags (cfg : Config) (inputData : List ℝ) (f : ℕ) : List ℝ :=
  computeMagnitudeSpectrum cfg.fftSize ((inputData.drop (f * cfg.hopSize)).take cfg.fftSize)

/-- Source lines 329-339: peak (magnitude, bin) scan over the carrier
range [600 Hz, 5000 Hz); bins at or past the end of the magnitude list
never update the best (the JS read would be undefined). -/
noncomputable def peakScan (cfg : Config) (magnitudes : List ℝ) : ℝ × ℕ :=
  let binSize := (cfg.sampleRate : ℝ) / (cfg.fftSize : ℝ)
  let minBin := ⌊(600 : ℝ) / binSize⌋₊
  let limitBin := ⌊(5000 : ℝ) / binSize⌋₊
  (List.range' minBin (limitBin - minBin)).foldl
    (fun best k =>
      if k < magnitudes.length ∧ best.1 < magnitudes.getD k 0
      then (magnitudes.getD k 0, k) else best)
    (0, 0)

/-- Source lines 345-351: parabolic (quadratic) refinement of the peak
bin; left as the integer bin when the peak is at either border. -/
noncomputable def refineBin (magnitudes : List ℝ) (peakBin : ℕ) : ℝ :=
  if 0 < peakBin ∧ peakBin + 1 < magnitudes.length then
    let alpha := magnitudes.getD (peakBin - 1) 0
    let beta := magnitudes.getD peakBin 0
    let gamma := magnitudes.getD (peakBin + 1) 0
    (peakBin : ℝ) + 0.5 * (alpha - gamma) / (alpha - 2 * beta + gamma)
  else (peakBin : ℝ)

/-- Source lines 341-354: raw pitch of one decoded frame: 0 below the
0.05 carrier threshold, else refined bin * binSize / PITCH_MULTIPLIER. -/
noncomputable def rawPitchOf (cfg : Config) (magnitudes : List ℝ) : ℝ :=
  let scan := peakScan cfg magnitudes
  if 0.05 < scan.1 then
    refineBin magnitudes scan.2 * ((cfg.sampleRate : ℝ) / (cfg.fftSize : ℝ)) / cfg.pitchMultiplier
  else 0

/-- Source lines 359-360: the median is entry 2 of the ascending sort of
the five-entry buffer (the JS comparator (a,b) => a-b sorts ascending;
any ascending sort yields the same sorted list). -/
noncomputable def median5 (buf : List ℝ) : ℝ :=
  (List.insertionSort (· ≤ ·) buf).getD 2 0

/-- Source lines 363-379: band energy recovery: peak magnitude in a
±2-bin window around the expected data carrier bin, scaled by 80 and the
progressive equalization factor. -/
noncomputable def decodeBandEnergies (cfg : Config) (magnitudes : List ℝ) : List ℝ :=
  let binSize := (cfg.sampleRate : ℝ) / (cfg.fftSize : ℝ)
  (List.range cfg.numBands).map (fun (b : ℕ) =>
    let targetFreq := cfg.birdDataStartFreq + (b : ℝ) * cfg.birdDataStep
    let centerBin := ⌊targetFreq / binSize⌋
    let bandMax := (intRange (centerBin - 2) (centerBin + 2)).foldl
      (fun bandMax k =>
        if 0 ≤ k ∧ k.toNat < magnitudes.length
        then max bandMax (magnitudes.getD k.toNat 0) else bandMax) 0
    bandMax * 80.0 * (1.0 + ((b : ℝ) / (cfg.numBands : ℝ)) * 2.0))

/-- Source lines 322-383, body for decoder frame f: compute the frame
magnitudes, raw pitch, push/shift the smoothing buffer, emit the frame
with the median-smoothed pitch and the peak carrier magnitude. -/
noncomputable def decodeAnalysisStep (cfg : Config) (inputData : List ℝ)
    (st : List ℝ × List DecodedFrame) (f : ℕ) : List ℝ × List DecodedFrame :=
  let magnitudes := frameMags cfg inputData f
  let scan := peakScan cfg magnitudes
  let pitch := rawPitchOf cfg magnitudes
  let pitchBuf := (st.1 ++ [pitch]).drop 1
  let smoothedPitch := median5 pitchBuf
  (pitchBuf, st.2 ++ [{ bandEnergies := decodeBandEnergies cfg magnitudes
                        pitch := smoothedPitch
                        amplitude := scan.1 }])

/-- Source lines 319-383: the decoder analysis pass over n frames, with
the pitch smoothing buffer seeded [0,0,0,0,0]. -/
noncomputable def decodeAnalysis (cfg : Config) (inputData : List ℝ) (n : ℕ) :
    List DecodedFrame :=
  ((List.range n).foldl (decodeAnalysisStep cfg inputData) ([0, 0, 0, 0, 0], [])).2

/-- Source lines 405-434: the voiced harmonic loop from harmonic h with
the given remaining iteration budget (40 at h = 1), stopping at the
first harmonic above SPEECH_MAX_FREQ; returns the updated phase slots
and the accumulated harmonic sum. -/
noncomputable def voicedGo (cfg : Config) (frame next : DecodedFrame) (pos p : ℝ) :
    ℕ → ℕ → List ℝ → List ℝ × ℝ
  | _, 0, phases => (phases, 0)
  | h, fuel + 1, phases =>
    let freq := p * (h : ℝ)
    if cfg.speechMaxFreq < freq then (phases, 0)
    else
      let ph0 := phases.getD h 0 + 2 * Real.pi * freq / (cfg.sampleRate : ℝ)
      let ph := if 2 * Real.pi < ph0 then ph0 - 2 * Real.pi else ph0
      let phases1 := phases.set h ph
      let bandIdx := (hzToMel freq - hzToMel 100)
        / (hzToMel cfg.speechMaxFreq - hzToMel 100) * (cfg.numBands : ℝ)
      let amp := if 0 ≤ bandIdx ∧ bandIdx < (cfg.numBands : ℝ) - 1 then
          let b1 := ⌊bandIdx⌋₊
          let frac := bandIdx - (b1 : ℝ)
          let e1 := frame.bandEnergies.getD b1 0 * (1 - pos) + next.bandEnergies.getD b1 0 * pos
          let e2 := frame.bandEnergies.getD (b1 + 1) 0 * (1 - pos)
            + next.bandEnergies.getD (b1 + 1) 0 * pos
          e1 * (1 - frac) + e2 * frac
        else 0
      let rest := voicedGo cfg frame next pos p (h + 1) fuel phases1
      (rest.1, Real.sin ph * amp + rest.2)

/-- Source lines 436-447: the unvoiced branch for one sample: filtered
noise over the even-indexed bands, scaled by 0.5. -/
noncomputable def unvoicedSample (cfg : Config) (frame next : DecodedFrame)
    (pos : ℝ) (i : ℕ) (noisePhase noise : ℝ) : ℝ :=
  ((List.range ((cfg.numBands + 1) / 2)).map (fun (j : ℕ) =>
    let b := 2 * j
    let energy := frame.bandEnergies.getD b 0 * (1 - pos) + next.bandEnergies.getD b 0 * pos
    let f := ((getMelBands cfg).getD b default).center
    Real.sin ((i : ℝ) * f * 0.001 + noisePhase) * energy * noise)).sum * 0.5

/-- Source lines 389-452, body for one output sample i of the decoder
resynthesis: state is (harmonic phase slots, noisePhase, count of random
draws made so far -- Math.random() is a sequential stream, consumed one
value per unvoiced sample). -/
noncomputable def decodeSynthStep (cfg : Config) (frames : List DecodedFrame)
    (rand : ℕ → ℝ) (i : ℕ) (st : List ℝ × ℝ × ℕ) : (List ℝ × ℝ × ℕ) × ℝ :=
  let idx := i / cfg.hopSize
  let pos := ((i % cfg.hopSize : ℕ) : ℝ) / (cfg.hopSize : ℝ)
  let frame := frames.getD idx default
  let next := frames.getD (idx + 1) default
  let p := frame.pitch * (1 - pos) + next.pitch * pos
  if 60 < p then
    let v := voicedGo cfg frame next pos p 1 40 st.1
    ((v.1, st.2.1, st.2.2), v.2 * 0.003)
  else
    let noisePhase := st.2.1 + 1000
    let noise := rand st.2.2 * 2 - 1
    ((st.1, noisePhase, st.2.2 + 1), unvoicedSample cfg frame next pos i noisePhase noise * 0.003)

/-- Source lines 389-452: the resynthesis loop from sample i, producing k
samples while threading the synthesis state. -/
noncomputable def decodeSynthGo (cfg : Config) (frames : List DecodedFrame)
    (rand : ℕ → ℝ) : ℕ → ℕ → (List ℝ × ℝ × ℕ) → List ℝ
  | _, 0, _ => []
  | i, k + 1, st =>
    let s := decodeSynthStep cfg frames rand i st
    s.2 :: decodeSynthGo cfg frames rand (i + 1) k s.1

/-- Source lines 386-452: the full resynthesis pass: 64 zero-initialized
harmonic phase slots, noisePhase 0, no random draws yet; the break at
idx >= frames.length - 1 is the sample limit, after which the
preallocated output stays zero. -/
noncomputable def decodeResynth (cfg : Config) (frames : List DecodedFrame)
    (rand : ℕ → ℝ) (outputLength : ℕ) : List ℝ :=
  let limit := min outputLength ((frames.length - 1) * cfg.hopSize)
  decodeSynthGo cfg frames rand 0 limit (List.replicate 64 0, 0, 0)
    ++ List.replicate (outputLength - limit) 0

/-- Source lines 299-475: decodeFrombirdsong, the pure core of the
decoder (UI state, yielding and AudioBuffer wrapping dropped; rand is
the Math.random stream of the unvoiced branch). -/
noncomputable def decodeFrombirdsong (cfg : Config) (rand : ℕ → ℝ)
    (inputData : List ℝ) : Except String (List ℝ) :=
  let numFrames := numFramesOf inputData.length cfg.fftSize cfg.hopSize
  if numFrames ≤ 0 then Except.error "Audio too short" else
  let n := numFrames.toNat
  let frames := decodeAnalysis cfg inputData n
  Except.ok (normalizeTo 0.85 (decodeResynth cfg frames rand inputData.length))

lemma decodeSynthGo_length (cfg : Config) (frames : List DecodedFrame)
    (rand : ℕ → ℝ) : ∀ k i st, (decodeSynthGo cfg frames rand i k st).length = k := by
  intro k
  induction k with
  | zero => intro i st; rfl
  | succ k ih =>
    intro i st
    show (_ :: _).length = k + 1
    rw [List.length_cons, ih]

lemma decodeResynth_length (cfg : Config) (frames : List DecodedFrame)
    (rand : ℕ → ℝ) (outputLength : ℕ) :
    (decodeResynth cfg frames rand outputLength).length = outputLength := by
  unfold decodeResynth
  rw [List.length_append, decodeSynthGo_length, List.length_replicate]
  exact Nat.add_sub_cancel' (min_le_left _ _)

lemma encodeTobirdsong_ok (cfg : Config) (phase0 : ℕ → ℝ) (input : List ℝ)
    (he : 0 < numFramesOf input.length cfg.fftSize cfg.hopSize) :
    encodeTobirdsong cfg phase0 input = Except.ok (normalizeTo 0.95
      (encodeSynthGo cfg
          (analysisFrames cfg input (numFramesOf input.length cfg.fftSize cfg.hopSize).toNat)
          0
          (min input.length
            (((numFramesOf input.length cfg.fftSize cfg.hopSize).toNat - 1) * cfg.hopSize))
          0 ((List.range cfg.numBands).map (fun b => phase0 b))
        ++ List.replicate
            (input.length - min input.length
              (((numFramesOf input.length cfg.fftSize cfg.hopSize).toNat - 1) * cfg.hopSize))
            0)) := by
  simp only [encodeTobirdsong]
  rw [if_neg (not_le.mpr he)]

lemma decodeFrombirdsong_ok (cfg : Config) (rand : ℕ → ℝ) (input : List ℝ)
    (hd : 0 < numFramesOf input.length cfg.fftSize cfg.hopSize) :
    decodeFrombirdsong cfg rand input = Except.ok (normalizeTo 0.85
      (decodeResynth cfg
        (decodeAnalysis cfg input (numFramesOf input.length cfg.fftSize cfg.hopSize).toNat)
        rand input.length)) := by
  simp only [decodeFrombirdsong]
  rw [if_neg (not_le.mpr hd)]

lemma encode_pre_length (cfg : Config) (frames : List FrameAnalysis)
    (phaseData0 : List ℝ) (len limit : ℕ) (hlim : limit ≤ len) :
    (encodeSynthGo cfg frames 0 limit 0 phaseData0
      ++ List.replicate (len - limit) (0 : ℝ)).length = len := by
  rw [List.length_append, encodeSynthGo_length, List.length_replicate]
  exact Nat.add_sub_cancel' hlim

/-- C1: whenever the input admits at least one full analysis frame (the
guard numFrames > 0 passes), encode returns a buffer of exactly the
input length, and likewise decode. -/
theorem C1_length (cfg : Config) (phase0 rand : ℕ → ℝ) (input cipher : List ℝ)
    (he : 0 < numFramesOf input.length cfg.fftSize cfg.hopSize)
    (hd : 0 < numFramesOf cipher.length cfg.fftSize cfg.hopSize) :
    (∃ out, encodeTobirdsong cfg phase0 input = Except.ok out
      ∧ out.length = input.length)
    ∧ (∃ out, decodeFrombirdsong cfg rand cipher = Except.ok out
      ∧ out.length = cipher.length) := by
  constructor
  · refine ⟨_, encodeTobirdsong_ok cfg phase0 input he, ?_⟩
    rw [normalizeTo_length]
    exact encode_pre_length cfg _ _ _ _ (min_le_left _ _)
  · refine ⟨_, decodeFrombirdsong_ok cfg rand cipher hd, ?_⟩
    rw [normalizeTo_length, decodeResynth_length]

/-- Witness for C1 at a concrete deployment and 2048-sample buffers. -/
theorem C1_length_witness :
    (∃ out, encodeTobirdsong ⟨24000, 1024, 256, 20, 4000, 5200, 120, 8⟩ (fun _ => 0)
        (List.replicate 2048 0) = Except.ok out
      ∧ out.length = (List.replicate 2048 (0 : ℝ)).length)
    ∧ (∃ out, decodeFrombirdsong ⟨24000, 1024, 256, 20, 4000, 5200, 120, 8⟩ (fun _ => 0)
        (List.replicate 2048 0) = Except.ok out
      ∧ out.length = (List.replicate 2048 (0 : ℝ)).length) :=
  C1_length ⟨24000, 1024, 256, 20, 4000, 5200, 120, 8⟩ (fun _ => 0) (fun _ => 0)
    (List.replicate 2048 0) (List.replicate 2048 0)
    (by rw [List.length_replicate]; decide) (by rw [List.length_replicate]; decide)

lemma numFramesOf_pos_iff (len fft hop : ℕ) (hh : 0 < hop) :
    0 < numFramesOf len fft hop ↔ fft + hop ≤ len := by
  unfold numFramesOf
  rw [Int.fdiv_eq_ediv _ (by exact_mod_cast Nat.zero_le hop)]
  constructor
  · intro h
    have h2 : (1 : ℤ) ≤ ((len : ℤ) - (fft : ℤ)) / (hop : ℤ) := h
    rw [Int.le_ediv_iff_mul_le (by exact_mod_cast hh)] at h2
    omega
  · intro h
    have h2 : (1 : ℤ) * (hop : ℤ) ≤ (len : ℤ) - (fft : ℤ) := by omega
    rw [← Int.le_ediv_iff_mul_le (by exact_mod_cast hh)] at h2
    exact h2

/-- C2 counterexample: at the deployment FFT_SIZE = 1024, HOP_SIZE = 256,
a buffer of 1025 samples is strictly longer than FFT_SIZE, yet encode
reports the "Audio too short" error (the guard needs FFT_SIZE + HOP_SIZE
samples), contradicting "every strictly longer buffer succeeds". -/
theorem C2_cex :
    1024 < (List.replicate 1025 (0 : ℝ)).length
    ∧ encodeTobirdsong ⟨24000, 1024, 256, 20, 4000, 5200, 120, 8⟩ (fun _ => 0)
        (List.replicate 1025 0) = Except.error "Audio too short" := by
  constructor
  · rw [List.length_replicate]; norm_num
  · simp only [encodeTobirdsong, List.length_replicate]
    rw [if_pos (by decide)]

/-- C2 amended: encode and decode raise the "input too short" error
exactly when len(input) < FFT_SIZE + HOP_SIZE (equivalently, when the
input admits no full analysis frame advanced by one hop); it is the only
error either raises, every buffer of at least FFT_SIZE + HOP_SIZE
samples succeeds, and in the error case the result carries no output
buffer at all. -/
theorem C2_inputTooShort (cfg : Config) (phase0 rand : ℕ → ℝ) (input : List ℝ)
    (hh : 0 < cfg.hopSize) :
    (input.length < cfg.fftSize + cfg.hopSize →
      encodeTobirdsong cfg phase0 input = Except.error "Audio too short"
      ∧ decodeFrombirdsong cfg rand input = Except.error "Audio too short")
    ∧ (cfg.fftSize + cfg.hopSize ≤ input.length →
      (∃ out, encodeTobirdsong cfg phase0 input = Except.ok out)
      ∧ (∃ out, decodeFrombirdsong cfg rand input = Except.ok out)) := by
  constructor
  · intro hshort
    have hguard : numFramesOf input.length cfg.fftSize cfg.hopSize ≤ 0 := by
      by_contra hc
      have := (numFramesOf_pos_iff input.length cfg.fftSize cfg.hopSize hh).mp
        (lt_of_not_le hc)
      omega
    constructor
    · simp only [encodeTobirdsong]
      rw [if_pos hguard]
    · simp only [decodeFrombirdsong]
      rw [if_pos hguard]
  · intro hlong
    have hpos := (numFramesOf_pos_iff input.length cfg.fftSize cfg.hopSize hh).mpr hlong
    exact ⟨⟨_, encodeTobirdsong_ok cfg phase0 input hpos⟩,
      ⟨_, decodeFrombirdsong_ok cfg rand input hpos⟩⟩

/-- Witness for C2 at a concrete deployment: a 1000-sample buffer is in
the error regime of both transforms. -/
theorem C2_inputTooShort_witness :
    encodeTobirdsong ⟨24000, 1024, 256, 20, 4000, 5200, 120, 8⟩ (fun _ => 0)
        (List.replicate 1000 0) = Except.error "Audio too short"
    ∧ decodeFrombirdsong ⟨24000, 1024, 256, 20, 4000, 5200, 120, 8⟩ (fun _ => 0)
        (List.replicate 1000 0) = Except.error "Audio too short" :=
  (C2_inputTooShort ⟨24000, 1024, 256, 20, 4000, 5200, 120, 8⟩ (fun _ => 0) (fun _ => 0)
    (List.replicate 1000 0) (by norm_num)).1
    (by rw [List.length_replicate]; norm_num)

/-- C3 counterexample: a non-silent constant-1 buffer of 1280 samples
(valid: it admits exactly one analysis frame, numFrames = 1) makes the
encoder synthesis loop break immediately, so the output is all-zero with
peak 0, not 0.95. -/
theorem C3_cex :
    (∃ v ∈ List.replicate 1280 (1 : ℝ), v ≠ 0)
    ∧ encodeTobirdsong ⟨24000, 1024, 256, 20, 4000, 5200, 120, 8⟩ (fun _ => 0)
        (List.replicate 1280 1) = Except.ok (List.replicate 1280 0)
    ∧ maxAbs (List.replicate 1280 (0 : ℝ)) ≠ 0.95 := by
  refine ⟨⟨1, List.mem_replicate.mpr ⟨by norm_num, rfl⟩, one_ne_zero⟩, ?_, ?_⟩
  · rw [encodeTobirdsong_ok _ _ _ (by rw [List.length_replicate]; decide)]
    rw [List.length_replicate]
    have hn : (numFramesOf 1280 1024 256).toNat = 1 := by decide
    rw [hn]
    rw [show (1 - 1) * 256 = 0 from rfl, Nat.min_zero, Nat.sub_zero]
    rw [show encodeSynthGo ⟨24000, 1024, 256, 20, 4000, 5200, 120, 8⟩ _ 0 0 0 _ = []
      from rfl]
    rw [List.nil_append]
    exact congrArg Except.ok
      (normalizeTo_of_maxAbs_eq_zero _ (maxAbs_replicate_zero 1280))
  · rw [maxAbs_replicate_zero]; norm_num

/-- C3 amended: for any input admitting at least one full frame, the
encoder output either has peak absolute value exactly 0.95 or is the
all-zero buffer (the case in which the synthesized signal is identically
zero and normalization is skipped); likewise the decoder with 0.85.
The original claim fails because a non-silent input can synthesize an
all-zero buffer (see the counterexample). -/
theorem C3_peak (cfg : Config) (phase0 rand : ℕ → ℝ) (input cipher : List ℝ)
    (he : 0 < numFramesOf input.length cfg.fftSize cfg.hopSize)
    (hd : 0 < numFramesOf cipher.length cfg.fftSize cfg.hopSize) :
    (∃ out, encodeTobirdsong cfg phase0 input = Except.ok out
      ∧ (maxAbs out = 0.95 ∨ out = List.replicate input.length 0))
    ∧ (∃ out, decodeFrombirdsong cfg rand cipher = Except.ok out
      ∧ (maxAbs out = 0.85 ∨ out = List.replicate cipher.length 0)) := by
  constructor
  · refine ⟨_, encodeTobirdsong_ok cfg phase0 input he, ?_⟩
    set pre := encodeSynthGo cfg
        (analysisFrames cfg input (numFramesOf input.length cfg.fftSize cfg.hopSize).toNat)
        0 (min input.length
          (((numFramesOf input.length cfg.fftSize cfg.hopSize).toNat - 1) * cfg.hopSize))
        0 ((List.range cfg.numBands).map (fun b => phase0 b))
      ++ List.replicate
          (input.length - min input.length
            (((numFramesOf input.length cfg.fftSize cfg.hopSize).toNat - 1) * cfg.hopSize))
          (0 : ℝ) with hpre
    rcases lt_or_eq_of_le (maxAbs_nonneg pre) with hpos | hzero
    · left
      exact maxAbs_normalizeTo (by norm_num) hpos
    · right
      rw [normalizeTo_of_maxAbs_eq_zero _ hzero.symm]
      rw [List.eq_replicate_iff]
      refine ⟨?_, maxAbs_eq_zero_forall hzero.symm⟩
      rw [hpre]
      exact encode_pre_length cfg _ _ _ _ (min_le_left _ _)
  · refine ⟨_, decodeFrombirdsong_ok cfg rand cipher hd, ?_⟩
    set pre := decodeResynth cfg
        (decodeAnalysis cfg cipher (numFramesOf cipher.length cfg.fftSize cfg.hopSize).toNat)
        rand cipher.length with hpre
    rcases lt_or_eq_of_le (maxAbs_nonneg pre) with hpos | hzero
    · left
      exact maxAbs_normalizeTo (by norm_num) hpos
    · right
      rw [normalizeTo_of_maxAbs_eq_zero _ hzero.symm]
      rw [List.eq_replicate_iff]
      refine ⟨?_, maxAbs_eq_zero_forall hzero.symm⟩
      rw [hpre, decodeResynth_length]

/-- Witness for C3 as amended, at a concrete deployment and 2048-sample
buffers. -/
theorem C3_peak_witness :
    (∃ out, encodeTobirdsong ⟨24000, 1024, 256, 20, 4000, 5200, 120, 8⟩ (fun _ => 0)
        (List.replicate 2048 0) = Except.ok out
      ∧ (maxAbs out = 0.95 ∨ out = List.replicate (List.replicate 2048 (0 : ℝ)).length 0))
    ∧ (∃ out, decodeFrombirdsong ⟨24000, 1024, 256, 20, 4000, 5200, 120, 8⟩ (fun _ => 0)
        (List.replicate 2048 0) = Except.ok out
      ∧ (maxAbs out = 0.85 ∨ out = List.replicate (List.replicate 2048 (0 : ℝ)).length 0)) :=
  C3_peak ⟨24000, 1024, 256, 20, 4000, 5200, 120, 8⟩ (fun _ => 0) (fun _ => 0)
    (List.replicate 2048 0) (List.replicate 2048 0)
    (by rw [List.length_replicate]; decide) (by rw [List.length_replicate]; decide)

lemma rmsOf_replicate_zero (k : ℕ) : rmsOf (List.replicate k (0 : ℝ)) = 0 := by
  unfold rmsOf
  rw [List.map_replicate, List.sum_replicate]
  simp

lemma extractPitch_of_silent {buffer : List ℝ} (sr : ℕ) (h : rmsOf buffer < 0.01) :
    extractPitch buffer sr = 0 := by
  rw [extractPitch_eq, if_pos h]

lemma encodeSynthGo_zero (cfg : Config) (frames : List FrameAnalysis)
    (hamp : ∀ j, (frames.getD j default).amplitude = 0) :
    ∀ k i phaseMain phaseData,
      encodeSynthGo cfg frames i k phaseMain phaseData = List.replicate k 0 := by
  intro k
  induction k with
  | zero => intro i pm pd; rfl
  | succ k ih =>
    intro i pm pd
    have hs : (encodeStep cfg frames i pm pd).2 = 0 := by
      simp only [encodeStep, hamp, zero_mul, add_zero, mul_zero]
    show (encodeStep cfg frames i pm pd).2
        :: encodeSynthGo cfg frames (i + 1) k _ _ = _
    rw [hs, ih, List.replicate_succ]

lemma analysisFrames_amplitude_zero (cfg : Config) (len n : ℕ) :
    ∀ j, ((analysisFrames cfg (List.replicate len 0) n).getD j default).amplitude = 0 := by
  intro j
  by_cases hj : j < n
  · have hlen : j < (analysisFrames cfg (List.replicate len 0) n).length := by
      simp only [analysisFrames, List.length_map, List.length_range]
      exact hj
    rw [List.getD_eq_getElem _ _ hlen]
    simp only [analysisFrames, List.getElem_map, List.getElem_range]
    show (analyzeSpeechFrame cfg _).amplitude = 0
    simp only [analyzeSpeechFrame]
    rw [List.drop_replicate, List.take_replicate]
    exact rmsOf_replicate_zero _
  · have hge : (analysisFrames cfg (List.replicate len 0) n).length ≤ j := by
      simp only [analysisFrames, List.length_map, List.length_range]
      omega
    rw [List.getD_eq_default _ _ hge]
    rfl

lemma analysisFrames_pitch_zero (cfg : Config) (len n : ℕ) :
    ∀ j, ((analysisFrames cfg (List.replicate len 0) n).getD j default).pitch = 0 := by
  intro j
  by_cases hj : j < n
  · have hlen : j < (analysisFrames cfg (List.replicate len 0) n).length := by
      simp only [analysisFrames, List.length_map, List.length_range]
      exact hj
    rw [List.getD_eq_getElem _ _ hlen]
    simp only [analysisFrames, List.getElem_map, List.getElem_range]
    show (analyzeSpeechFrame cfg _).pitch = 0
    simp only [analyzeSpeechFrame]
    rw [List.drop_replicate, List.take_replicate]
    exact extractPitch_of_silent cfg.sampleRate
      (by rw [rmsOf_replicate_zero]; norm_num)
  · have hge : (analysisFrames cfg (List.replicate len 0) n).length ≤ j := by
      simp only [analysisFrames, List.length_map, List.length_range]
      omega
    rw [List.getD_eq_default _ _ hge]
    rfl

/-- C4: an all-zero input of valid length encodes to the all-zero buffer
of the same length (the peak is 0, so the normalization division is
skipped); every frame analyzed from that input has pitch 0; and in
general the RMS silence gate forces extractPitch to 0 whenever the
window RMS is below 0.01. -/
theorem C4_allZero (cfg : Config) (phase0 : ℕ → ℝ) (len : ℕ)
    (hv : 0 < numFramesOf len cfg.fftSize cfg.hopSize) :
    encodeTobirdsong cfg phase0 (List.replicate len 0)
      = Except.ok (List.replicate len 0)
    ∧ (∀ f, ((analysisFrames cfg (List.replicate len 0)
        (numFramesOf len cfg.fftSize cfg.hopSize).toNat).getD f default).pitch = 0)
    ∧ (∀ (buffer : List ℝ) (sr : ℕ), rmsOf buffer < 0.01 →
        extractPitch buffer sr = 0) := by
  refine ⟨?_, analysisFrames_pitch_zero cfg len _, fun buffer sr h =>
    extractPitch_of_silent sr h⟩
  rw [encodeTobirdsong_ok cfg phase0 _ (by rw [List.length_replicate]; exact hv)]
  rw [List.length_replicate]
  rw [encodeSynthGo_zero cfg _ (analysisFrames_amplitude_zero cfg len _)]
  rw [← List.replicate_add]
  rw [Nat.add_sub_cancel' (min_le_left _ _)]
  rw [normalizeTo_of_maxAbs_eq_zero _ (maxAbs_replicate_zero len)]

/-- Witness for C4 at a concrete deployment and a 2048-sample silent
buffer. -/
theorem C4_allZero_witness :
    encodeTobirdsong ⟨24000, 1024, 256, 20, 4000, 5200, 120, 8⟩ (fun _ => 0)
        (List.replicate 2048 0) = Except.ok (List.replicate 2048 0) :=
  (C4_allZero ⟨24000, 1024, 256, 20, 4000, 5200, 120, 8⟩ (fun _ => 0) 2048 (by decide)).1

/-- C7: when the three magnitudes centered on the peak bin are the
symmetric triple [a, b, a] and the interpolation denominator
a - 2b + a is nonzero, the parabolic refinement leaves the bin offset
exactly 0, so the refined bin equals the peak bin. -/
theorem C7_parabolic (magnitudes : List ℝ) (peakBin : ℕ) (a b : ℝ)
    (h0 : 0 < peakBin) (h1 : peakBin + 1 < magnitudes.length)
    (ha : magnitudes.getD (peakBin - 1) 0 = a)
    (hb : magnitudes.getD peakBin 0 = b)
    (hg : magnitudes.getD (peakBin + 1) 0 = a)
    (hd : a - 2 * b + a ≠ 0) :
    refineBin magnitudes peakBin = peakBin := by
  unfold refineBin
  rw [if_pos ⟨h0, h1⟩]
  simp only [ha, hb, hg, sub_self, mul_zero, zero_div, add_zero]

/-- Witness for C7 on the concrete triple [1, 5, 1]. -/
theorem C7_parabolic_witness : refineBin [1, 5, 1] 1 = (1 : ℕ) :=
  C7_parabolic [1, 5, 1] 1 1 5 (by norm_num) (by norm_num)
    rfl rfl rfl (by norm_num)

lemma voicedGo_congr (cfg : Config) (f1 n1 f2 n2 : DecodedFrame) (pos p : ℝ)
    (hf : f1.bandEnergies = f2.bandEnergies) (hn : n1.bandEnergies = n2.bandEnergies) :
    ∀ fuel h phases,
      voicedGo cfg f1 n1 pos p h fuel phases = voicedGo cfg f2 n2 pos p h fuel phases := by
  intro fuel
  induction fuel with
  | zero => intro h phases; rfl
  | succ fuel ih =>
    intro h phases
    simp only [voicedGo, hf, hn, ih]

lemma unvoicedSample_congr (cfg : Config) (f1 n1 f2 n2 : DecodedFrame)
    (pos : ℝ) (i : ℕ) (noisePhase noise : ℝ)
    (hf : f1.bandEnergies = f2.bandEnergies) (hn : n1.bandEnergies = n2.bandEnergies) :
    unvoicedSample cfg f1 n1 pos i noisePhase noise
      = unvoicedSample cfg f2 n2 pos i noisePhase noise := by
  simp only [unvoicedSample, hf, hn]

lemma decodeSynthStep_congr (cfg : Config) (rand : ℕ → ℝ)
    (frames1 frames2 : List DecodedFrame)
    (hp : ∀ j, (frames1.getD j default).pitch = (frames2.getD j default).pitch)
    (hb : ∀ j, (frames1.getD j default).bandEnergies
      = (frames2.getD j default).bandEnergies)
    (i : ℕ) (st : List ℝ × ℝ × ℕ) :
    decodeSynthStep cfg frames1 rand i st = decodeSynthStep cfg frames2 rand i st := by
  simp only [decodeSynthStep, hp]
  rw [voicedGo_congr cfg _ _ _ _ _ _ (hb (i / cfg.hopSize)) (hb (i / cfg.hopSize + 1))]
  rw [unvoicedSample_congr cfg _ _ _ _ _ _ _ _ (hb (i / cfg.hopSize))
    (hb (i / cfg.hopSize + 1))]

lemma decodeSynthGo_congr (cfg : Config) (rand : ℕ → ℝ)
    (frames1 frames2 : List DecodedFrame)
    (hp : ∀ j, (frames1.getD j default).pitch = (frames2.getD j default).pitch)
    (hb : ∀ j, (frames1.getD j default).bandEnergies
      = (frames2.getD j default).bandEnergies) :
    ∀ k i st, decodeSynthGo cfg frames1 rand i k st
      = decodeSynthGo cfg frames2 rand i k st := by
  intro k
  induction k with
  | zero => intro i st; rfl
  | succ k ih =>
    intro i st
    show (decodeSynthStep cfg frames1 rand i st).2
        :: decodeSynthGo cfg frames1 rand (i + 1) k (decodeSynthStep cfg frames1 rand i st).1
      = (decodeSynthStep cfg frames2 rand i st).2
        :: decodeSynthGo cfg frames2 rand (i + 1) k (decodeSynthStep cfg frames2 rand i st).1
    rw [decodeSynthStep_congr cfg rand frames1 frames2 hp hb i st, ih]

/-- C9: the resynthesis output never reads the amplitude field of the
decoded frames: over two frame sequences of equal length that agree on
pitch and band energies (but may differ arbitrarily in amplitude), with
the same random stream, the resynthesis produces identical buffers. -/
theorem C9_amplitudeUnused (cfg : Config) (rand : ℕ → ℝ)
    (frames1 frames2 : List DecodedFrame) (outputLength : ℕ)
    (hlen : frames1.length = frames2.length)
    (hp : ∀ j, (frames1.getD j default).pitch = (frames2.getD j default).pitch)
    (hb : ∀ j, (frames1.getD j default).bandEnergies
      = (frames2.getD j default).bandEnergies) :
    decodeResynth cfg frames1 rand outputLength
      = decodeResynth cfg frames2 rand outputLength := by
  simp only [decodeResynth]
  rw [hlen, decodeSynthGo_congr cfg rand frames1 frames2 hp hb]

/-- Witness for C9: two 2-frame sequences agreeing on pitch and band
energies but with different amplitudes (1, 2 versus 5, 7) resynthesize
to the same 600-sample buffer. -/
theorem C9_amplitudeUnused_witness :
    decodeResynth ⟨24000, 1024, 256, 20, 4000, 5200, 120, 8⟩
      [⟨[1, 2], 100, 1⟩, ⟨[1, 2], 200, 2⟩] (fun _ => 0) 600
    = decodeResynth ⟨24000, 1024, 256, 20, 4000, 5200, 120, 8⟩
      [⟨[1, 2], 100, 5⟩, ⟨[1, 2], 200, 7⟩] (fun _ => 0) 600 := by
  apply C9_amplitudeUnused
  · rfl
  · intro j
    match j with
    | 0 => rfl
    | 1 => rfl
    | (n + 2) => rfl
  · intro j
    match j with
    | 0 => rfl
    | 1 => rfl
    | (n + 2) => rfl

/-- Raw (pre-smoothing) pitch estimate of decoder frame f. -/
noncomputable def recentRaw (cfg : Config) (inputData : List ℝ) (f : ℕ) : ℝ :=
  rawPitchOf cfg (frameMags cfg inputData f)

/-- The pitch smoothing buffer as it stands after m analysis steps:
entry t (t = 0..4) is the raw pitch of frame m + t - 5, or the seed 0
when that frame index would be negative. -/
noncomputable def stateWindow (cfg : Config) (inputData : List ℝ) (m : ℕ) : List ℝ :=
  (List.range 5).map (fun t =>
    if m + t < 5 then 0 else recentRaw cfg inputData (m + t - 5))

/-- The 5 most recent raw pitch estimates at frame f, oldest first:
raw(f-4), ..., raw(f), with 0 standing in for frames before the start
(the seed zeros). -/
noncomputable def recentWindow (cfg : Config) (inputData : List ℝ) (f : ℕ) : List ℝ :=
  [if f < 4 then 0 else recentRaw cfg inputData (f - 4),
   if f < 3 then 0 else recentRaw cfg inputData (f - 3),
   if f < 2 then 0 else recentRaw cfg inputData (f - 2),
   if f < 1 then 0 else recentRaw cfg inputData (f - 1),
   recentRaw cfg inputData f]

/-- The decoded frame the analysis pass emits at index f, written
without the stateful buffer. -/
noncomputable def expectedFrame (cfg : Config) (inputData : List ℝ) (f : ℕ) : DecodedFrame :=
  { bandEnergies := decodeBandEnergies cfg (frameMags cfg inputData f)
    pitch := median5 (stateWindow cfg inputData (f + 1))
    amplitude := (peakScan cfg (frameMags cfg inputData f)).1 }

lemma stateWindow_zero (cfg : Config) (inputData : List ℝ) :
    stateWindow cfg inputData 0 = [0, 0, 0, 0, 0] := by
  unfold stateWindow
  rw [show List.range 5 = [0, 1, 2, 3, 4] from rfl]
  norm_num

lemma stateWindow_step (cfg : Config) (inputData : List ℝ) (m : ℕ) :
    (stateWindow cfg inputData m ++ [recentRaw cfg inputData m]).drop 1
      = stateWindow cfg inputData (m + 1) := by
  unfold stateWindow
  rw [show List.range 5 = [0, 1, 2, 3, 4] from rfl]
  simp only [List.map_cons, List.map_nil, List.cons_append, List.nil_append,
    List.drop_succ_cons, List.drop_zero]
  have h4 : ¬ (m + 1 + 4 < 5) := by omega
  rw [if_neg h4]
  have h4' : m + 1 + 4 - 5 = m := by omega
  rw [h4']

lemma stateWindow_eq_recentWindow (cfg : Config) (inputData : List ℝ) (f : ℕ) :
    stateWindow cfg inputData (f + 1) = recentWindow cfg inputData f := by
  unfold stateWindow recentWindow
  rw [show List.range 5 = [0, 1, 2, 3, 4] from rfl]
  simp only [List.map_cons, List.map_nil, List.cons.injEq, and_true]
  refine ⟨?_, ?_, ?_, ?_, ?_⟩
  · split_ifs <;> first | rfl | omega
  · split_ifs <;> first | rfl | omega
  · split_ifs <;> first | rfl | omega
  · split_ifs <;> first | rfl | omega
  · split_ifs <;> first | rfl | omega

lemma decodeAnalysis_fold (cfg : Config) (inputData : List ℝ) : ∀ m : ℕ,
    (List.range m).foldl (decodeAnalysisStep cfg inputData) ([0, 0, 0, 0, 0], [])
      = (stateWindow cfg inputData m,
         (List.range m).map (expectedFrame cfg inputData)) := by
  intro m
  induction m with
  | zero =>
    rw [stateWindow_zero]
    rfl
  | succ m ih =>
    rw [List.range_succ, List.foldl_append, ih, List.foldl_cons, List.foldl_nil]
    simp only [decodeAnalysisStep]
    rw [show rawPitchOf cfg (frameMags cfg inputData m) = recentRaw cfg inputData m from rfl]
    rw [stateWindow_step]
    rw [List.map_append]
    rfl

/-- C8: the decoder analysis pass emits exactly n frames, and the pitch
of frame f is the median (entry 2 of the ascending sort) of the 5 most
recent raw pitch estimates raw(f-4), ..., raw(f), where estimates before
the first frame are the seed zeros of the per-call smoothing buffer. -/
theorem C8_medianSmoothing (cfg : Config) (inputData : List ℝ) (n : ℕ) :
    (decodeAnalysis cfg inputData n).length = n
    ∧ ∀ f, f < n →
        ((decodeAnalysis cfg inputData n).getD f default).pitch
          = median5 (recentWindow cfg inputData f) := by
  have hfold := decodeAnalysis_fold cfg inputData n
  have hda : decodeAnalysis cfg inputData n
      = (List.range n).map (expectedFrame cfg inputData) := by
    unfold decodeAnalysis
    rw [hfold]
  constructor
  · rw [hda, List.length_map, List.length_range]
  · intro f hf
    have hlen : f < (decodeAnalysis cfg inputData n).length := by
      rw [hda, List.length_map, List.length_range]; exact hf
    rw [List.getD_eq_getElem _ _ hlen]
    have : (decodeAnalysis cfg inputData n)[f] = expectedFrame cfg inputData f := by
      have hlen2 : f < ((List.range n).map (expectedFrame cfg inputData)).length := by
        rw [List.length_map, List.length_range]; exact hf
      rw [List.getElem_of_eq hda hlen]
      simp only [List.getElem_map, List.getElem_range]
    rw [this]
    show median5 (stateWindow cfg inputData (f + 1)) = _
    rw [stateWindow_eq_recentWindow]

end Birdsong
